import Mathlib

/-!
Shallow embedding of the embedding-request pipeline of
`src/ai-service/app.py` (validation, preprocessing, batching, response
assembly, and the cosine-similarity endpoint), together with theorems
settling the spec claims about it.

Python strings are modelled as `List Char`; Python ints as `Int`/`Nat`;
the float vectors produced by the model as `List ℚ` (the claims under
study concern only shapes, counts and exact-zero denominators, never
rounding).  Fallible code is modelled with `Except`.
-/

deriving instance DecidableEq for Except

namespace ResearchPaperHelper

/-- ASCII whitespace as recognized by Python's `str.split()` with no
separator argument (space, tab, newline, carriage return, vertical tab,
form feed).  Unicode whitespace is out of scope for the claims. -/
def isPyWs (c : Char) : Bool :=
  c == ' ' || c == '\t' || c == '\n' || c == '\r' || c == '\x0b' || c == '\x0c'

/-- Python `text.split()` (no separator): splits on runs of whitespace,
producing no empty words.  `acc` is the word currently being read,
reversed.  Source: `app.py` line 127 (`text.split()`) and line 252
(`text.split()` in the token count). -/
def pySplitAux : List Char → List Char → List (List Char)
  | [], acc => if acc.isEmpty then [] else [acc.reverse]
  | c :: cs, acc =>
    if isPyWs c then
      if acc.isEmpty then pySplitAux cs [] else acc.reverse :: pySplitAux cs []
    else
      pySplitAux cs (c :: acc)

/-- Python `text.split()` on a string given as a char list. -/
def pySplit (l : List Char) : List (List Char) := pySplitAux l []

/-- Python `' '.join(words)`. -/
def pyJoin : List (List Char) → List Char
  | [] => []
  | [w] => w
  | w :: ws => w ++ ' ' :: pyJoin ws

/-- The source's whitespace cleanup `' '.join(text.split())`
(`app.py` line 127). -/
def normalizeWs (l : List Char) : List Char := pyJoin (pySplit l)

/-- Python slice `l[:k]` for an integer bound `k`; a negative bound
counts from the end of the list. -/
def pySliceTo (l : List Char) (k : Int) : List Char :=
  if 0 ≤ k then l.take k.toNat else l.take (l.length - (-k).toNat)

/-- The body of `preprocess_texts` for one text (`app.py` lines 125-133):
collapse whitespace, then truncate to `MAX_TEXT_LENGTH - 3` characters
plus `"..."` if the cleaned string still exceeds `MAX_TEXT_LENGTH`. -/
def preprocess_text (maxLen : ℕ) (l : List Char) : List Char :=
  let cleaned := normalizeWs l
  if maxLen < cleaned.length then
    pySliceTo cleaned ((maxLen : Int) - 3) ++ ['.', '.', '.']
  else cleaned

/-- The source's `preprocess_texts` (`app.py` lines 121-135). -/
def preprocess_texts (maxLen : ℕ) (texts : List (List Char)) : List (List Char) :=
  texts.map (preprocess_text maxLen)

/-- A Python value as seen by `validate_texts`'s `isinstance` check: a
string, or anything else. -/
inductive PyVal where
  | str : List Char → PyVal
  | nonStr : PyVal
deriving DecidableEq

/-- The `ValueError`s raised by `validate_texts` (`app.py` lines 103-119),
named after the spec's error taxonomy.  `batchTooLarge` carries the list
length and the configured maximum, as the message does. -/
inductive ValidationError where
  | emptyInput : ValidationError
  | batchTooLarge : ℕ → ℕ → ValidationError
  | invalidElement : ℕ → ValidationError
  | textTooLong : ℕ → ValidationError
deriving DecidableEq

/-- The per-element loop of `validate_texts` (`app.py` lines 111-119),
starting at index `i`.  The `isinstance` check precedes the length
check; a whitespace-only string is only logged, never rejected. -/
def validateElems (maxLen : ℕ) : ℕ → List PyVal → Except ValidationError Unit
  | _, [] => .ok ()
  | i, .nonStr :: _ => .error (.invalidElement i)
  | i, .str s :: vs =>
    if maxLen < s.length then .error (.textTooLong i)
    else validateElems maxLen (i + 1) vs

/-- The source's `validate_texts` (`app.py` lines 103-119): empty check, batch-size
check, then the per-element loop. -/
def validate_texts (maxBatch maxLen : ℕ) (texts : List PyVal) :
    Except ValidationError Unit :=
  if texts.isEmpty then .error .emptyInput
  else if maxBatch < texts.length then
    .error (.batchTooLarge texts.length maxBatch)
  else validateElems maxLen 0 texts

/-- The batch-size computation of `app.py` lines 225-229:
`min(request.batch_size or MAX_BATCH_SIZE, MAX_BATCH_SIZE, len(texts))`.
Python's `or` replaces both `None` and the falsy `0` by
`MAX_BATCH_SIZE`; any other integer, including a negative one, passes
through. -/
def effectiveBatchSize (maxBatch n : ℕ) (requested : Option Int) : Int :=
  let r : Int :=
    match requested with
    | none => (maxBatch : Int)
    | some b => if b == 0 then (maxBatch : Int) else b
  min (min r (maxBatch : Int)) (n : Int)

/-- Chunking loop worker: `acc` is the current chunk reversed, `r` the
remaining capacity of the current chunk, `k` the configured chunk
size. -/
def chunksGo (k : ℕ) : List α → List α → ℕ → List (List α)
  | [], acc, _ => if acc.isEmpty then [] else [acc.reverse]
  | x :: xs, acc, 0 => acc.reverse :: chunksGo k xs [x] (k - 1)
  | x :: xs, acc, r + 1 => chunksGo k xs (x :: acc) r

/-- The source's batching loop (`app.py` lines 235-236):
`for i in range(0, len(l), step)` taking slices `l[i:i+step]`.
For a negative `step`, Python's `range(0, n, step)` is empty and no
chunk is produced.  (`step = 0` would raise `ValueError` in Python; it
is unreachable after validation, since the minimum of a positive length,
a positive maximum, and a value that is either ≥ 1 or negative is never
zero.) -/
def pyChunks (step : Int) (l : List α) : List (List α) :=
  if step ≤ 0 then [] else chunksGo step.toNat l [] step.toNat

/-- The response fields of `generate_embeddings` that the claims speak
about (`app.py` lines 256-262).  The `model` name and the wall-clock
`processing_time` field are omitted: no claim mentions them and elapsed
real time is not representable in this embedding. -/
structure EmbeddingResponse where
  embeddings : List (List ℚ)
  total_tokens : ℕ
  dimensions : ℕ
deriving DecidableEq

/-- The embedding-generation pipeline of `app.py` lines 219-262, after
the pydantic schema has produced a `List[str]` body: validate,
preprocess, compute the batch size, loop over chunks calling the
producer `encode` and accumulating vectors and the word-split token
count, then assemble the response with
`dimensions = len(all_embeddings[0]) if all_embeddings else 0`.
The producer (`embedding_model.encode`) is an external capability,
passed in as a function of the chunk; the `normalize` flag is forwarded
to it unchanged by the source and is absorbed into `encode` here. -/
def generate_embeddings (maxBatch maxLen : ℕ)
    (encode : List (List Char) → List (List ℚ))
    (texts : List (List Char)) (requested : Option Int) :
    Except ValidationError EmbeddingResponse :=
  match validate_texts maxBatch maxLen (texts.map .str) with
  | .error e => .error e
  | .ok _ =>
    let processed := preprocess_texts maxLen texts
    let step := effectiveBatchSize maxBatch processed.length requested
    let chunks := pyChunks step processed
    let all_embeddings := (chunks.map encode).flatten
    let total_tokens :=
      (chunks.map fun ch => (ch.map fun t => (pySplit t).length).sum).sum
    .ok { embeddings := all_embeddings
          total_tokens := total_tokens
          dimensions :=
            match all_embeddings with
            | [] => 0
            | e :: _ => e.length }

/-- The error of the `/similarity` endpoint's shape check
(`app.py` lines 298-299). -/
inductive SimilarityError where
  | dimensionMismatch : SimilarityError
deriving DecidableEq

/-- What `/similarity` computes on success (`app.py` lines 302-310).
The code returns `dot / (norm(v1) * norm(v2))`; since the norms are
square roots, the outcome records the numerator and the exact square of
the divisor (`normSq1 * normSq2` is the square of
`norm(v1) * norm(v2)`), plus the reported `dimensions` field. -/
structure SimilarityOutcome where
  dot : ℚ
  normSq1 : ℚ
  normSq2 : ℚ
  dimensions : ℕ
deriving DecidableEq

/-- The dot product `np.dot` on two equal-length flat vectors. -/
def dotProduct (v1 v2 : List ℚ) : ℚ := (List.zipWith (fun a b => a * b) v1 v2).sum

/-- Sum of squares of a vector: the square of its L2 norm. -/
def normSq (v : List ℚ) : ℚ := (v.map fun x => x * x).sum

/-- The source's `compute_similarity` (`app.py` lines 286-310): reject on shape
mismatch (for flat vectors, shape equality is length equality),
otherwise divide the dot product by the product of the two L2 norms —
with no epsilon and no special case for zero norms. -/
def compute_similarity (v1 v2 : List ℚ) : Except SimilarityError SimilarityOutcome :=
  if v1.length = v2.length then
    .ok { dot := dotProduct v1 v2
          normSq1 := normSq v1
          normSq2 := normSq v2
          dimensions := v1.length }
  else .error .dimensionMismatch

/-- Modelled from the spec's words (for the refinement claim about
`preprocess`): trim leading and trailing whitespace and collapse every
interior run of whitespace to a single space.  `pending` records that a
whitespace run is open after at least one emitted character. -/
def specCollapseGo : Bool → List Char → List Char
  | _, [] => []
  | pending, c :: cs =>
    if isPyWs c then specCollapseGo true cs
    else if pending then ' ' :: c :: specCollapseGo false cs
    else c :: specCollapseGo false cs

/-- Modelled from the spec's words: whitespace normalization as
described — trim, then collapse interior runs to single spaces. -/
def specTrimCollapse (s : List Char) : List Char :=
  specCollapseGo false (s.dropWhile isPyWs)

example : pySplit "  hello   world ".toList = ["hello".toList, "world".toList] := by decide
example : normalizeWs "  hello   world ".toList = "hello world".toList := by decide
example : specTrimCollapse "  hello   world ".toList = "hello world".toList := by decide
example : (pyChunks 4 (List.range 10)).map List.length = [4, 4, 2] := by decide
example : effectiveBatchSize 4 10 none = 4 := by decide
example : effectiveBatchSize 4 10 (some 0) = 4 := by decide
example : effectiveBatchSize 4 10 (some (-1)) = -1 := by decide
example : pyChunks (-1) (List.range 3) = [] := by decide
example : validate_texts 32 8192 [] = .error .emptyInput := by decide
example : validate_texts 2 8192 [.str [], .str [], .str []] =
    .error (.batchTooLarge 3 2) := by decide
example : validate_texts 32 2 [.str "a".toList, .str "abc".toList] =
    .error (.textTooLong 1) := by decide
example : validate_texts 32 8192 [.str "a".toList, .nonStr] =
    .error (.invalidElement 1) := by decide

/-- An element passes the per-element checks of `validate_texts`: it is
a string of length at most `maxLen`. -/
def elemOk (maxLen : ℕ) : PyVal → Prop
  | .str s => s.length ≤ maxLen
  | .nonStr => False

instance (maxLen : ℕ) (v : PyVal) : Decidable (elemOk maxLen v) :=
  match v with
  | .str s => inferInstanceAs (Decidable (s.length ≤ maxLen))
  | .nonStr => inferInstanceAs (Decidable False)

lemma validateElems_ok_iff (maxLen : ℕ) (i : ℕ) (vs : List PyVal) :
    validateElems maxLen i vs = .ok () ↔ ∀ v ∈ vs, elemOk maxLen v := by
  induction vs generalizing i with
  | nil => simp [validateElems]
  | cons v vs ih =>
    cases v with
    | nonStr => simp [validateElems, elemOk]
    | str s =>
      by_cases h : maxLen < s.length
      · have h' : ¬ s.length ≤ maxLen := by omega
        simp [validateElems, h, elemOk, h']
      · have h' : s.length ≤ maxLen := by omega
        simp [validateElems, h, ih, elemOk, h']

lemma validateElems_invalid_idx (maxLen : ℕ) (i j : ℕ) (vs : List PyVal)
    (h : validateElems maxLen i vs = .error (.invalidElement j)) :
    ∃ k, j = i + k ∧ vs[k]? = some .nonStr := by
  induction vs generalizing i with
  | nil => simp [validateElems] at h
  | cons v vs ih =>
    cases v with
    | nonStr =>
      simp [validateElems] at h
      exact ⟨0, by omega, by simp⟩
    | str s =>
      by_cases hl : maxLen < s.length
      · simp [validateElems, hl] at h
      · simp [validateElems, hl] at h
        obtain ⟨k, hk, hget⟩ := ih (i + 1) h
        exact ⟨k + 1, by omega, by simpa using hget⟩

lemma validateElems_tooLong_idx (maxLen : ℕ) (i j : ℕ) (vs : List PyVal)
    (h : validateElems maxLen i vs = .error (.textTooLong j)) :
    ∃ k s, j = i + k ∧ vs[k]? = some (.str s) ∧ maxLen < s.length := by
  induction vs generalizing i with
  | nil => simp [validateElems] at h
  | cons v vs ih =>
    cases v with
    | nonStr => simp [validateElems] at h
    | str s =>
      by_cases hl : maxLen < s.length
      · simp [validateElems, hl] at h
        exact ⟨0, s, by omega, by simp, hl⟩
      · simp [validateElems, hl] at h
        obtain ⟨k, s', hk, hget, hs'⟩ := ih (i + 1) h
        exact ⟨k + 1, s', by omega, by simpa using hget, hs'⟩

lemma validate_texts_ok_iff (maxBatch maxLen : ℕ) (ts : List PyVal) :
    validate_texts maxBatch maxLen ts = .ok () ↔
      ts ≠ [] ∧ ts.length ≤ maxBatch ∧ ∀ v ∈ ts, elemOk maxLen v := by
  by_cases he : ts = []
  · subst he; simp [validate_texts]
  · by_cases hb : maxBatch < ts.length
    · have h' : ¬ ts.length ≤ maxBatch := by omega
      simp [validate_texts, he, hb, h']
    · have h' : ts.length ≤ maxBatch := by omega
      simp [validate_texts, he, hb, h', validateElems_ok_iff]

/-- Validation of a list that really is a list of strings (as the
pydantic schema guarantees at the endpoint) succeeds exactly when the
list is non-empty, within the batch limit, and every string is within
the length limit. -/
lemma validate_strs_ok_iff (maxBatch maxLen : ℕ) (texts : List (List Char)) :
    validate_texts maxBatch maxLen (texts.map .str) = .ok () ↔
      texts ≠ [] ∧ texts.length ≤ maxBatch ∧ ∀ s ∈ texts, s.length ≤ maxLen := by
  rw [validate_texts_ok_iff]
  simp [elemOk]

/-- C3: validation of the texts list fails exactly when the list is
empty (`EmptyInputError`), or longer than `MAX_BATCH_SIZE`
(`BatchTooLargeError`), or some element is not a string
(`InvalidElementError`) or is a string longer than `MAX_TEXT_LENGTH`
(`TextTooLongError`); the per-element errors identify the offending
index, and any list meeting all the conditions passes — in particular a
whitespace-only string is never rejected. -/
theorem validate_texts_characterization (maxBatch maxLen : ℕ) (ts : List PyVal) :
    (validate_texts maxBatch maxLen ts = .ok () ↔
      ts ≠ [] ∧ ts.length ≤ maxBatch ∧ ∀ v ∈ ts, elemOk maxLen v) ∧
    (ts = [] → validate_texts maxBatch maxLen ts = .error .emptyInput) ∧
    (ts ≠ [] → maxBatch < ts.length →
      validate_texts maxBatch maxLen ts = .error (.batchTooLarge ts.length maxBatch)) ∧
    (∀ j, validate_texts maxBatch maxLen ts = .error (.invalidElement j) →
      ts[j]? = some .nonStr) ∧
    (∀ j, validate_texts maxBatch maxLen ts = .error (.textTooLong j) →
      ∃ s, ts[j]? = some (.str s) ∧ maxLen < s.length) := by
  refine ⟨validate_texts_ok_iff maxBatch maxLen ts, ?_, ?_, ?_, ?_⟩
  · intro he; subst he; simp [validate_texts]
  · intro he hb; simp [validate_texts, he, hb]
  · intro j h
    by_cases he : ts = []
    · subst he; simp [validate_texts] at h
    · by_cases hb : maxBatch < ts.length
      · simp [validate_texts, he, hb] at h
      · simp [validate_texts, he, hb] at h
        obtain ⟨k, hk, hget⟩ := validateElems_invalid_idx maxLen 0 j ts h
        simpa [hk] using hget
  · intro j h
    by_cases he : ts = []
    · subst he; simp [validate_texts] at h
    · by_cases hb : maxBatch < ts.length
      · simp [validate_texts, he, hb] at h
      · simp [validate_texts, he, hb] at h
        obtain ⟨k, s, hk, hget, hs⟩ := validateElems_tooLong_idx maxLen 0 j ts h
        exact ⟨s, by simpa [hk] using hget, hs⟩

/-- Witness for C3 at a concrete input: a singleton list holding the
empty string passes validation (empty-after-trim strings are only
logged, never rejected). -/
theorem validate_texts_characterization_witness :
    validate_texts 32 8192 [PyVal.str []] = .ok () :=
  (validate_texts_characterization 32 8192 [PyVal.str []]).1.mpr (by decide)

lemma chunksGo_ne_nil (k : ℕ) (l : List α) (a : α) (as : List α) (r : ℕ) :
    chunksGo k l (a :: as) r ≠ [] := by
  induction l generalizing a as r with
  | nil => simp [chunksGo]
  | cons x xs ih =>
    cases r with
    | zero => simp [chunksGo]
    | succ r => simpa [chunksGo] using ih x (a :: as) r

lemma chunksGo_flatten (k : ℕ) (l : List α) :
    ∀ (acc : List α) (r : ℕ), (chunksGo k l acc r).flatten = acc.reverse ++ l := by
  induction l with
  | nil =>
    intro acc r
    by_cases h : acc.isEmpty
    · have : acc = [] := by simpa [List.isEmpty_iff] using h
      subst this
      simp [chunksGo]
    · simp [chunksGo, h]
  | cons x xs ih =>
    intro acc r
    cases r with
    | zero => simp [chunksGo, ih]
    | succ r => simp [chunksGo, ih]

lemma chunksGo_lengths (k : ℕ) (hk : 1 ≤ k) (l : List α) :
    ∀ (acc : List α) (r : ℕ), acc.length + r = k →
      (∀ c ∈ (chunksGo k l acc r).dropLast, c.length = k) ∧
      (∀ c ∈ chunksGo k l acc r, 1 ≤ c.length ∧ c.length ≤ k) := by
  induction l with
  | nil =>
    intro acc r hinv
    by_cases h : acc.isEmpty
    · have : acc = [] := by simpa [List.isEmpty_iff] using h
      subst this
      simp [chunksGo]
    · have hne : acc ≠ [] := by simpa [List.isEmpty_iff] using h
      constructor
      · simp [chunksGo, h]
      · intro c hc
        simp [chunksGo, h] at hc
        subst hc
        have hpos : 0 < acc.length := List.length_pos.mpr hne
        simp only [List.length_reverse]
        omega
  | cons x xs ih =>
    intro acc r hinv
    cases r with
    | zero =>
      have hinv' : ([x] : List α).length + (k - 1) = k := by
        simp only [List.length_singleton]
        omega
      obtain ⟨ih1, ih2⟩ := ih [x] (k - 1) hinv'
      have hne := chunksGo_ne_nil k xs x [] (k - 1)
      obtain ⟨y, ys, hys⟩ := List.exists_cons_of_ne_nil hne
      have hacc : acc.length = k := by omega
      constructor
      · intro c hc
        rw [chunksGo, hys, List.dropLast_cons₂] at hc
        rcases List.mem_cons.mp hc with hc | hc
        · subst hc; simpa using hacc
        · exact ih1 c (by rwa [hys])
      · intro c hc
        rw [chunksGo] at hc
        rcases List.mem_cons.mp hc with hc | hc
        · subst hc
          simp only [List.length_reverse]
          omega
        · exact ih2 c hc
    | succ r =>
      have hinv' : (x :: acc).length + r = k := by
        simp only [List.length_cons]
        omega
      obtain ⟨ih1, ih2⟩ := ih (x :: acc) r hinv'
      exact ⟨by simpa [chunksGo] using ih1, by simpa [chunksGo] using ih2⟩

lemma pyChunks_flatten (step : Int) (h : 1 ≤ step) (l : List α) :
    (pyChunks step l).flatten = l := by
  have h' : ¬ step ≤ 0 := by omega
  simp [pyChunks, h', chunksGo_flatten]

lemma pyChunks_lengths (step : Int) (h : 1 ≤ step) (l : List α) :
    (∀ c ∈ (pyChunks step l).dropLast, c.length = step.toNat) ∧
    (∀ c ∈ pyChunks step l, 1 ≤ c.length ∧ c.length ≤ step.toNat) := by
  have h' : ¬ step ≤ 0 := by omega
  have hk : 1 ≤ step.toNat := by omega
  have := chunksGo_lengths step.toNat hk l [] step.toNat (by simp)
  simpa [pyChunks, h'] using this

/-- C6 counterexample: the request schema accepts any integer as the
batch-size override, and the negative override `-1` passes Python's
falsy `or` unchanged, so the effective chunk size
`min(-1, MAX_BATCH_SIZE, len(texts))` is `-1 < 1` even for a non-empty
texts list. -/
theorem effectiveBatchSize_neg_override : effectiveBatchSize 32 1 (some (-1)) < 1 := by
  decide

lemma one_le_effectiveBatchSize (maxBatch n : ℕ) (requested : Option Int)
    (hn : 1 ≤ n) (hmB : 1 ≤ maxBatch)
    (hreq : ∀ b, requested = some b → 0 ≤ b) :
    1 ≤ effectiveBatchSize maxBatch n requested := by
  cases requested with
  | none =>
    simp only [effectiveBatchSize, le_min_iff]
    refine ⟨⟨?_, ?_⟩, ?_⟩ <;> omega
  | some b =>
    have hb := hreq b rfl
    by_cases h0 : b = 0
    · subst h0
      simp only [effectiveBatchSize, le_min_iff]
      norm_num
      omega
    · have hb1 : 1 ≤ b := by
        rcases lt_or_eq_of_le hb with h | h
        · omega
        · exact absurd h.symm h0
      simp only [effectiveBatchSize, le_min_iff]
      have : ((b == 0) = false) := by simpa using h0
      rw [this]
      refine ⟨⟨?_, ?_⟩, ?_⟩
      · simpa using hb1
      · omega
      · omega

/-- C6 amended: when the override is absent or a non-negative integer
(a falsy `0` is replaced by `MAX_BATCH_SIZE`), and `MAX_BATCH_SIZE ≥ 1`
and `texts` is non-empty, the effective chunk size
`min(requested or max, max, n)` is at least 1. -/
theorem effectiveBatchSize_pos (maxBatch n : ℕ) (requested : Option Int)
    (hn : 1 ≤ n) (hmB : 1 ≤ maxBatch)
    (hreq : ∀ b, requested = some b → 0 ≤ b) :
    1 ≤ effectiveBatchSize maxBatch n requested :=
  one_le_effectiveBatchSize maxBatch n requested hn hmB hreq

/-- Witness for C6 amended at a concrete input: one text, no override,
maximum batch size 32. -/
theorem effectiveBatchSize_pos_witness : 1 ≤ effectiveBatchSize 32 1 none :=
  effectiveBatchSize_pos 32 1 none (by decide) (by decide) (by simp)

/-- C2 counterexample: with `MAX_BATCH_SIZE = 4`, a non-empty texts
list of length 1 and the schema-accepted override `-1`, the effective
chunk size is `-1` and the batching loop (Python's `range(0, 1, -1)`)
produces no chunk at all, so the chunks do not cover the input. -/
theorem batch_plan_neg_override :
    effectiveBatchSize 4 1 (some (-1)) = -1 ∧
    pyChunks (effectiveBatchSize 4 1 (some (-1))) [[('a' : Char)]] = [] ∧
    (pyChunks (effectiveBatchSize 4 1 (some (-1))) [[('a' : Char)]]).flatten ≠
      [[('a' : Char)]] := by
  refine ⟨by decide, by decide, by decide⟩

/-- C2 amended: for every non-empty texts list, `MAX_BATCH_SIZE ≥ 1`,
and an override that is absent or non-negative, the effective chunk
size is `min(requested or max, max, len(texts)) ≥ 1` and the batching
loop produces contiguous, order-preserving chunks covering every input
exactly once (their concatenation is the input list), every chunk
except possibly the last has exactly the effective size, every chunk is
non-empty and no longer than the effective size; and in particular for
10 texts with `MAX_BATCH_SIZE = 4` and no override the chunk sizes are
`[4, 4, 2]`. -/
theorem batch_plan_props (maxBatch : ℕ) (texts : List (List Char)) (requested : Option Int)
    (hne : texts ≠ []) (hmB : 1 ≤ maxBatch)
    (hreq : ∀ b, requested = some b → 0 ≤ b) :
    1 ≤ effectiveBatchSize maxBatch texts.length requested ∧
    (pyChunks (effectiveBatchSize maxBatch texts.length requested) texts).flatten = texts ∧
    (∀ c ∈ (pyChunks (effectiveBatchSize maxBatch texts.length requested) texts).dropLast,
      c.length = (effectiveBatchSize maxBatch texts.length requested).toNat) ∧
    (∀ c ∈ pyChunks (effectiveBatchSize maxBatch texts.length requested) texts,
      1 ≤ c.length ∧
        c.length ≤ (effectiveBatchSize maxBatch texts.length requested).toNat) ∧
    (pyChunks (effectiveBatchSize 4 10 none) (List.range 10)).map List.length =
      [4, 4, 2] := by
  have hn : 1 ≤ texts.length := List.length_pos.mpr hne
  have hstep := one_le_effectiveBatchSize maxBatch texts.length requested hn hmB hreq
  obtain ⟨h1, h2⟩ := pyChunks_lengths (effectiveBatchSize maxBatch texts.length requested)
    hstep texts
  exact ⟨hstep, pyChunks_flatten _ hstep texts, h1, h2, by decide⟩

/-- Witness for C2 amended at a concrete input: 10 one-character texts,
maximum batch size 4, no override; the chunks concatenate back to the
input. -/
theorem batch_plan_props_witness :
    (pyChunks (effectiveBatchSize 4 (List.replicate 10 [('a' : Char)]).length none)
      (List.replicate 10 [('a' : Char)])).flatten = List.replicate 10 [('a' : Char)] :=
  (batch_plan_props 4 (List.replicate 10 ['a']) none (by decide) (by decide) (by simp)).2.1

/-- The chunk list computed inside `generate_embeddings` (`app.py`
lines 225-236): the preprocessed texts cut into slices of the effective
batch size. -/
def pipelineChunks (maxBatch maxLen : ℕ) (texts : List (List Char))
    (requested : Option Int) : List (List (List Char)) :=
  pyChunks
    (effectiveBatchSize maxBatch (preprocess_texts maxLen texts).length requested)
    (preprocess_texts maxLen texts)

lemma generate_embeddings_eq (maxBatch maxLen : ℕ)
    (encode : List (List Char) → List (List ℚ))
    (texts : List (List Char)) (requested : Option Int)
    (hval : validate_texts maxBatch maxLen (texts.map .str) = .ok ()) :
    generate_embeddings maxBatch maxLen encode texts requested =
      .ok { embeddings :=
              ((pipelineChunks maxBatch maxLen texts requested).map encode).flatten
            total_tokens :=
              ((pipelineChunks maxBatch maxLen texts requested).map
                fun ch => (ch.map fun t => (pySplit t).length).sum).sum
            dimensions :=
              match ((pipelineChunks maxBatch maxLen texts requested).map
                  encode).flatten with
              | [] => 0
              | e :: _ => e.length } := by
  unfold generate_embeddings pipelineChunks
  rw [hval]

lemma preprocess_texts_length (maxLen : ℕ) (texts : List (List Char)) :
    (preprocess_texts maxLen texts).length = texts.length := by
  simp [preprocess_texts]

lemma pipelineChunks_flatten (maxBatch maxLen : ℕ) (texts : List (List Char))
    (requested : Option Int)
    (hne : texts ≠ []) (hlen : texts.length ≤ maxBatch)
    (hreq : ∀ b, requested = some b → 0 ≤ b) :
    (pipelineChunks maxBatch maxLen texts requested).flatten =
      preprocess_texts maxLen texts := by
  have hn : 1 ≤ texts.length := List.length_pos.mpr hne
  have hstep := one_le_effectiveBatchSize maxBatch (preprocess_texts maxLen texts).length
    requested (by rw [preprocess_texts_length]; omega) (by omega) hreq
  exact pyChunks_flatten _ hstep _

/-- C4 counterexample: with a producer returning no vectors at all, a
call on one text still succeeds — the response carries 0 embeddings for
1 input text, and no assembly error of any kind is raised (no
`AssemblyMismatchError` exists in the code). -/
theorem assembly_no_mismatch_check :
    generate_embeddings 32 8192 (fun _ => []) [[('a' : Char)]] none =
      .ok { embeddings := [], total_tokens := 1, dimensions := 0 } ∧
    ([[('a' : Char)]].length = 1 ∧ ([] : List (List ℚ)).length = 0) := by
  exact ⟨by decide, by decide⟩

/-- C4 amended: response assembly performs no vector-count check;
whenever validation succeeds, the call returns a success response
assembled from whatever vectors the producer supplied, even when their
number differs from the number of input texts. -/
theorem assembly_never_fails (maxBatch maxLen : ℕ)
    (encode : List (List Char) → List (List ℚ))
    (texts : List (List Char)) (requested : Option Int)
    (hval : validate_texts maxBatch maxLen (texts.map .str) = .ok ()) :
    ∃ r, generate_embeddings maxBatch maxLen encode texts requested = .ok r :=
  ⟨_, generate_embeddings_eq maxBatch maxLen encode texts requested hval⟩

/-- Witness for C4 amended at a concrete input: a producer returning
two vectors for one input text; the call still succeeds. -/
theorem assembly_never_fails_witness :
    ∃ r, generate_embeddings 32 8192 (fun _ => [[(1 : ℚ)], [2]]) [[('a' : Char)]] none =
      .ok r :=
  assembly_never_fails 32 8192 (fun _ => [[(1 : ℚ)], [2]]) [[('a' : Char)]] none (by decide)

/-- C1: for every texts list that passes validation, called with no
batch-size override, and a producer that returns one vector of
dimension `D` per input string: the call succeeds, the embeddings count
equals the input count, every embedding has length equal to the
response's `dimensions` field, that field is `D`; and when the producer
is an elementwise stub `g`, the i-th embedding is exactly `g` of the
i-th preprocessed text (input order is preserved). -/
theorem generate_embeddings_shape (maxBatch maxLen D : ℕ)
    (encode : List (List Char) → List (List ℚ))
    (hcount : ∀ b, (encode b).length = b.length)
    (hdim : ∀ b, ∀ e ∈ encode b, e.length = D)
    (texts : List (List Char))
    (hval : validate_texts maxBatch maxLen (texts.map .str) = .ok ()) :
    (∃ r, generate_embeddings maxBatch maxLen encode texts none = .ok r ∧
      r.embeddings.length = texts.length ∧
      (∀ e ∈ r.embeddings, e.length = r.dimensions) ∧
      r.dimensions = D) ∧
    (∀ g : List Char → List ℚ, encode = (fun b => b.map g) →
      ∃ r, generate_embeddings maxBatch maxLen encode texts none = .ok r ∧
        r.embeddings = (preprocess_texts maxLen texts).map g) := by
  obtain ⟨hne, hlen, -⟩ := (validate_strs_ok_iff maxBatch maxLen texts).mp hval
  have hcov := pipelineChunks_flatten maxBatch maxLen texts none hne hlen (by simp)
  have hemb : ((pipelineChunks maxBatch maxLen texts none).map encode).flatten.length =
      texts.length := by
    rw [List.length_flatten, List.map_map]
    have : (List.length ∘ encode) = fun ch : List (List Char) => ch.length := by
      funext ch
      exact hcount ch
    rw [this, ← List.length_flatten, hcov, preprocess_texts_length]
  constructor
  · refine ⟨_, generate_embeddings_eq maxBatch maxLen encode texts none hval, hemb, ?_, ?_⟩
    · intro e he
      rcases List.mem_flatten.mp he with ⟨b, hb, heb⟩
      rcases List.mem_map.mp hb with ⟨ch, -, rfl⟩
      have heD : e.length = D := hdim ch e heb
      rcases hflat : ((pipelineChunks maxBatch maxLen texts none).map encode).flatten with
        - | ⟨e0, es⟩
      · rw [hflat] at he
        simp at he
      · have he0 : e0 ∈ ((pipelineChunks maxBatch maxLen texts none).map encode).flatten := by
          rw [hflat]; exact List.mem_cons_self e0 es
        rcases List.mem_flatten.mp he0 with ⟨b0, hb0, heb0⟩
        rcases List.mem_map.mp hb0 with ⟨ch0, -, rfl⟩
        simp only [hflat]
        rw [heD, hdim ch0 e0 heb0]
    · have hpos : 0 < ((pipelineChunks maxBatch maxLen texts none).map encode).flatten.length := by
        rw [hemb]
        exact List.length_pos.mpr hne
      rcases hflat : ((pipelineChunks maxBatch maxLen texts none).map encode).flatten with
        - | ⟨e0, es⟩
      · rw [hflat] at hpos; simp at hpos
      · have he0 : e0 ∈ ((pipelineChunks maxBatch maxLen texts none).map encode).flatten := by
          rw [hflat]; exact List.mem_cons_self e0 es
        rcases List.mem_flatten.mp he0 with ⟨b0, hb0, heb0⟩
        rcases List.mem_map.mp hb0 with ⟨ch0, -, rfl⟩
        simp only [hflat]
        exact hdim ch0 e0 heb0
  · intro g hg
    refine ⟨_, generate_embeddings_eq maxBatch maxLen encode texts none hval, ?_⟩
    show ((pipelineChunks maxBatch maxLen texts none).map encode).flatten =
      (preprocess_texts maxLen texts).map g
    subst hg
    rw [← List.map_flatten, hcov]

/-- Witness for C1 at the spec's example input: two texts, an
elementwise stub producer of dimension 1. -/
theorem generate_embeddings_shape_witness :
    ∃ r, generate_embeddings 32 8192 (fun b => b.map fun _ => [(1 : ℚ)])
        ["hello world".toList, "foo bar baz".toList] none = .ok r ∧
      r.embeddings.length = 2 ∧ r.dimensions = 1 := by
  obtain ⟨⟨r, hok, hlen, -, hdim⟩, -⟩ :=
    generate_embeddings_shape 32 8192 1 (fun b => b.map fun _ => [(1 : ℚ)])
      (by intro b; simp)
      (by intro b e he; rcases List.mem_map.mp he with ⟨t, -, rfl⟩; rfl)
      ["hello world".toList, "foo bar baz".toList] (by decide)
  exact ⟨r, hok, by simpa using hlen, hdim⟩

/-- C8 counterexample: a successful call with the schema-accepted
negative override `-1` runs the batching loop zero times (Python's
`range(0, 1, -1)` is empty), so `total_tokens` is 0 although the single
preprocessed input text has 1 whitespace-delimited token. -/
theorem total_tokens_neg_override :
    generate_embeddings 32 8192 (fun b => b.map fun _ => [(1 : ℚ)]) [[('a' : Char)]]
        (some (-1)) =
      .ok { embeddings := [], total_tokens := 0, dimensions := 0 } ∧
    ((preprocess_texts 8192 [[('a' : Char)]]).map fun t => (pySplit t).length).sum = 1 := by
  exact ⟨by decide, by decide⟩

/-- C8 amended: for every successful call whose batch-size override is
absent or non-negative, `total_tokens` equals the sum over all
preprocessed texts of the count of whitespace-delimited tokens in each
text. -/
theorem total_tokens_correct (maxBatch maxLen : ℕ)
    (encode : List (List Char) → List (List ℚ))
    (texts : List (List Char)) (requested : Option Int)
    (hval : validate_texts maxBatch maxLen (texts.map .str) = .ok ())
    (hreq : ∀ b, requested = some b → 0 ≤ b) :
    ∃ r, generate_embeddings maxBatch maxLen encode texts requested = .ok r ∧
      r.total_tokens =
        ((preprocess_texts maxLen texts).map fun t => (pySplit t).length).sum := by
  obtain ⟨hne, hlen, -⟩ := (validate_strs_ok_iff maxBatch maxLen texts).mp hval
  have hcov := pipelineChunks_flatten maxBatch maxLen texts requested hne hlen hreq
  refine ⟨_, generate_embeddings_eq maxBatch maxLen encode texts requested hval, ?_⟩
  show ((pipelineChunks maxBatch maxLen texts requested).map
      fun ch => (ch.map fun t => (pySplit t).length).sum).sum =
    ((preprocess_texts maxLen texts).map fun t => (pySplit t).length).sum
  rw [← hcov, List.map_flatten, List.sum_flatten, List.map_map]
  rfl

/-- Witness for C8 amended at the spec's example input: the token count
is 5 (2 + 3, word-split) for `["hello world", "foo bar baz"]`. -/
theorem total_tokens_correct_witness :
    ∃ r, generate_embeddings 32 8192 (fun b => b.map fun _ => [(1 : ℚ)])
        ["hello world".toList, "foo bar baz".toList] none = .ok r ∧
      r.total_tokens = 5 := by
  obtain ⟨r, hok, ht⟩ := total_tokens_correct 32 8192 (fun b => b.map fun _ => [(1 : ℚ)])
    ["hello world".toList, "foo bar baz".toList] none (by decide) (by simp)
  refine ⟨r, hok, ?_⟩
  rw [ht]
  decide

lemma normSq_nonneg (v : List ℚ) : 0 ≤ normSq v := by
  induction v with
  | nil => simp [normSq]
  | cons x xs ih =>
    have hx := mul_self_nonneg x
    have : normSq (x :: xs) = x * x + normSq xs := by simp [normSq]
    rw [this]
    positivity

lemma normSq_eq_zero_iff (v : List ℚ) : normSq v = 0 ↔ ∀ x ∈ v, x = 0 := by
  induction v with
  | nil => simp [normSq]
  | cons x xs ih =>
    have hx := mul_self_nonneg x
    have hxs := normSq_nonneg xs
    have hstep : normSq (x :: xs) = x * x + normSq xs := by simp [normSq]
    rw [hstep, add_eq_zero_iff_of_nonneg hx hxs, mul_self_eq_zero, ih]
    simp

/-- C9: `ComputeSimilarity` fails with `DimensionMismatchError` exactly
when the two vectors have different lengths; for equal-length inputs it
succeeds and the reported `dimensions` field equals the shared
length. -/
theorem compute_similarity_dims (v1 v2 : List ℚ) :
    (compute_similarity v1 v2 = .error .dimensionMismatch ↔ v1.length ≠ v2.length) ∧
    (∀ o, compute_similarity v1 v2 = .ok o →
      o.dimensions = v1.length ∧ o.dimensions = v2.length) := by
  by_cases h : v1.length = v2.length
  · constructor
    · simp [compute_similarity, h]
    · intro o ho
      simp only [compute_similarity, if_pos h, Except.ok.injEq] at ho
      subst ho
      exact ⟨rfl, h⟩
  · constructor
    · simp [compute_similarity, h]
    · intro o ho
      simp [compute_similarity, h] at ho

/-- Witness for C9 at a concrete input: vectors of lengths 2 and 1 are
rejected with the dimension-mismatch error. -/
theorem compute_similarity_dims_witness :
    compute_similarity [(1 : ℚ), 2] [(3 : ℚ)] = .error .dimensionMismatch :=
  (compute_similarity_dims [(1 : ℚ), 2] [(3 : ℚ)]).1.mpr (by decide)

/-- C5 counterexample: at the all-zero equal-length vectors `[0]` and
`[0]` the call succeeds with both recorded squared norms equal to 0, so
the divisor `‖v1‖₂ · ‖v2‖₂` the code divides by is exactly 0: there is
no ε and no special case, and the division is a division by zero. -/
theorem similarity_zero_divisor :
    compute_similarity [(0 : ℚ)] [(0 : ℚ)] =
      .ok { dot := 0, normSq1 := 0, normSq2 := 0, dimensions := 1 } := by
  norm_num [compute_similarity, dotProduct, normSq]

/-- C5 amended: for equal-length vectors the code computes cosine
similarity as dot(v1, v2) divided by `‖v1‖₂ · ‖v2‖₂` with no ε and no
special case; the square of that divisor is `normSq v1 * normSq v2`,
which vanishes — i.e. the computation divides by zero — exactly when at
least one of the two vectors is all-zero. -/
theorem similarity_divisor_characterization (v1 v2 : List ℚ)
    (h : v1.length = v2.length) :
    compute_similarity v1 v2 =
      .ok { dot := dotProduct v1 v2, normSq1 := normSq v1, normSq2 := normSq v2,
            dimensions := v1.length } ∧
    (normSq v1 * normSq v2 = 0 ↔ (∀ x ∈ v1, x = 0) ∨ (∀ x ∈ v2, x = 0)) := by
  refine ⟨by simp [compute_similarity, h], ?_⟩
  rw [mul_eq_zero, normSq_eq_zero_iff, normSq_eq_zero_iff]

/-- Witness for C5 amended at a concrete input: with `v1 = [0]` and
`v2 = [1]` the squared divisor is 0 because `v1` is all-zero. -/
theorem similarity_divisor_characterization_witness :
    normSq [(0 : ℚ)] * normSq [(1 : ℚ)] = 0 :=
  (similarity_divisor_characterization [(0 : ℚ)] [(1 : ℚ)] rfl).2.mpr
    (Or.inl (by decide))

lemma pySplitAux_ne_nil (l : List Char) (a : Char) (as : List Char) :
    pySplitAux l (a :: as) ≠ [] := by
  induction l generalizing a as with
  | nil => simp [pySplitAux]
  | cons c cs ih =>
    by_cases h : isPyWs c
    · simp [pySplitAux, h]
    · simpa [pySplitAux, h] using ih c (a :: as)

lemma pyJoin_cons (w : List Char) (ws : List (List Char)) :
    pyJoin (w :: ws) = w ++ (if ws = [] then [] else ' ' :: pyJoin ws) := by
  cases ws with
  | nil => simp [pyJoin]
  | cons w2 ws2 => simp [pyJoin]

lemma pySplit_collapse_aux (l : List Char) :
    (∀ (a : Char) (as : List Char),
      pyJoin (pySplitAux l (a :: as)) = (a :: as).reverse ++ specCollapseGo false l) ∧
    (specCollapseGo true l =
      if pySplitAux l [] = [] then [] else ' ' :: pyJoin (pySplitAux l [])) := by
  induction l with
  | nil =>
    constructor
    · intro a as
      simp [pySplitAux, pyJoin, specCollapseGo]
    · simp [pySplitAux, specCollapseGo]
  | cons c cs ih =>
    obtain ⟨ihB, ihD⟩ := ih
    constructor
    · intro a as
      by_cases h : isPyWs c
      · have hsplit : pySplitAux (c :: cs) (a :: as) =
            (a :: as).reverse :: pySplitAux cs [] := by
          simp [pySplitAux, h]
        have hgo : specCollapseGo false (c :: cs) = specCollapseGo true cs := by
          simp [specCollapseGo, h]
        rw [hsplit, pyJoin_cons, hgo, ihD]
      · have hsplit : pySplitAux (c :: cs) (a :: as) = pySplitAux cs (c :: a :: as) := by
          simp [pySplitAux, h]
        have hgo : specCollapseGo false (c :: cs) = c :: specCollapseGo false cs := by
          simp [specCollapseGo, h]
        rw [hsplit, ihB c (a :: as), hgo]
        simp
    · by_cases h : isPyWs c
      · have hsplit : pySplitAux (c :: cs) ([] : List Char) = pySplitAux cs [] := by
          simp [pySplitAux, h]
        have hgo : specCollapseGo true (c :: cs) = specCollapseGo true cs := by
          simp [specCollapseGo, h]
        rw [hgo, ihD, hsplit]
      · have hsplit : pySplitAux (c :: cs) ([] : List Char) = pySplitAux cs [c] := by
          simp [pySplitAux, h]
        have hgo : specCollapseGo true (c :: cs) = ' ' :: c :: specCollapseGo false cs := by
          simp [specCollapseGo, h]
        have hne := pySplitAux_ne_nil cs c []
        rw [hgo, hsplit, if_neg hne, ihB c []]
        simp

/-- The source's `' '.join(text.split())` computes exactly the spec's
trim-and-collapse normalization. -/
lemma normalizeWs_eq_specTrimCollapse (l : List Char) :
    normalizeWs l = specTrimCollapse l := by
  induction l with
  | nil => rfl
  | cons c cs ih =>
    by_cases h : isPyWs c
    · have h1 : normalizeWs (c :: cs) = normalizeWs cs := by
        simp [normalizeWs, pySplit, pySplitAux, h]
      have h2 : specTrimCollapse (c :: cs) = specTrimCollapse cs := by
        simp [specTrimCollapse, List.dropWhile_cons, h]
      rw [h1, h2, ih]
    · have h1 : pySplit (c :: cs) = pySplitAux cs [c] := by
        simp [pySplit, pySplitAux, h]
      have h2 : specTrimCollapse (c :: cs) = c :: specCollapseGo false cs := by
        simp [specTrimCollapse, List.dropWhile_cons, h, specCollapseGo]
      have hB := (pySplit_collapse_aux cs).1 c []
      simp only [normalizeWs] at *
      rw [h1, hB, h2]
      simp

lemma specCollapseGo_length (l : List Char) :
    (specCollapseGo false l).length ≤ l.length ∧
    (specCollapseGo true l).length ≤ l.length + 1 := by
  induction l with
  | nil => simp [specCollapseGo]
  | cons c cs ih =>
    obtain ⟨ih1, ih2⟩ := ih
    by_cases h : isPyWs c
    · constructor
      · simpa [specCollapseGo, h] using ih2
      · simp only [specCollapseGo, h, if_true, List.length_cons]
        omega
    · constructor
      · simp only [specCollapseGo, h, if_false, Bool.false_eq_true, List.length_cons]
        omega
      · simp only [specCollapseGo, h, if_false, Bool.false_eq_true, if_true,
          List.length_cons]
        omega

/-- Whitespace collapsing never lengthens a string. -/
lemma normalizeWs_length_le (l : List Char) : (normalizeWs l).length ≤ l.length := by
  rw [normalizeWs_eq_specTrimCollapse]
  simp only [specTrimCollapse]
  calc (specCollapseGo false (l.dropWhile isPyWs)).length
      ≤ (l.dropWhile isPyWs).length := (specCollapseGo_length _).1
    _ ≤ l.length := (List.dropWhile_sublist isPyWs).length_le

/-- C7: `preprocess` trims leading/trailing whitespace and collapses
every interior whitespace run to a single space; a cleaned string still
longer than `MAX_TEXT_LENGTH` is replaced by its first
`MAX_TEXT_LENGTH - 3` characters followed by `"..."`; a string within
the limit is returned whitespace-normalized but otherwise unchanged.
(Stated for `MAX_TEXT_LENGTH ≥ 3`, where Python's `cleaned[:MAX-3]`
slice is a plain prefix; the deployed default is 8192.) -/
theorem preprocess_spec (maxLen : ℕ) (h3 : 3 ≤ maxLen) (s : List Char) :
    preprocess_text maxLen s =
      if maxLen < (specTrimCollapse s).length then
        (specTrimCollapse s).take (maxLen - 3) ++ ['.', '.', '.']
      else specTrimCollapse s := by
  simp only [preprocess_text]
  rw [normalizeWs_eq_specTrimCollapse]
  have hnn : (0 : Int) ≤ (maxLen : Int) - 3 := by omega
  have htn : ((maxLen : Int) - 3).toNat = maxLen - 3 := by omega
  simp only [pySliceTo, if_pos hnn, htn]

/-- Witness for C7 at a concrete input: with the default limit, a
string with leading, interior and trailing whitespace runs is returned
trimmed and collapsed, with no truncation. -/
theorem preprocess_spec_witness :
    preprocess_text 8192 "  a   b ".toList = "a b".toList := by
  rw [preprocess_spec 8192 (by omega) "  a   b ".toList]
  decide

/-- C10: under the validation precondition every input string has
length at most `MAX_TEXT_LENGTH`; since whitespace collapsing never
increases a string's length, the truncation branch of `preprocess` is
unreachable, and every preprocessed result is exactly the
whitespace-normalized input with no `"..."` suffix appended. -/
theorem preprocess_no_truncation (maxLen : ℕ) (texts : List (List Char))
    (h : ∀ s ∈ texts, s.length ≤ maxLen) :
    preprocess_texts maxLen texts = texts.map normalizeWs := by
  unfold preprocess_texts
  apply List.map_congr_left
  intro s hs
  have hle : (normalizeWs s).length ≤ maxLen :=
    le_trans (normalizeWs_length_le s) (h s hs)
  simp only [preprocess_text]
  rw [if_neg (by omega)]

/-- Witness for C10 at a concrete input: a validated short string is
returned whitespace-normalized, not truncated. -/
theorem preprocess_no_truncation_witness :
    preprocess_texts 8192 ["a  b".toList] = [normalizeWs "a  b".toList] := by
  have h := preprocess_no_truncation 8192 ["a  b".toList] (by decide)
  simpa using h

end ResearchPaperHelper
